import Mathlib

/-!
# Verification of the echo-gcs-middleware static-file pipeline

Shallow embedding of the Go middleware (package `gcsmiddleware`) that serves
static files from a Google Cloud Storage bucket behind the Echo web framework.
Go strings are modelled as lists of characters (the relevant data is ASCII, so
bytes and characters coincide); Go string-library and `path`-library helpers
used by the middleware are embedded first, then the middleware's own
functions (`filePath`, `getContentType`, `getFiles`, `compressData`,
`shouldCompress`, and the response-selection logic of `ServerHeader`).
Accesses that can panic in Go (out-of-bounds indexing, writing through the
nil writer that `gzip.NewWriterLevel` returns on an invalid level) are
embedded as `Option`, with `none` marking the panic.
-/

namespace GcsMiddleware

/-- A Go string, modelled as a list of characters. -/
abbrev GoString := List Char

/-- Coerce a Lean string literal to the `GoString` model. -/
def gs (s : String) : GoString := s.data

/-- Embeds Go `strings.Index(s, pat)`: index of the first occurrence of
`pat` in `s`, or `none` when there is no occurrence (Go returns `-1`). -/
def firstIdx : GoString → GoString → Option Nat
  | [], pat => if pat.isPrefixOf [] then some 0 else none
  | c :: t, pat => if pat.isPrefixOf (c :: t) then some 0 else (firstIdx t pat).map (· + 1)

/-- Embeds Go `strings.Contains(s, sub)`: `strings.Index(s, sub) >= 0`. -/
def containsSub (s sub : GoString) : Bool := (firstIdx s sub).isSome

/-- Embeds Go `strings.Replace(s, pat, "", 1)`: remove the first occurrence
of `pat` from `s` (`s[:i] + "" + s[i+len(pat):]`); `s` unchanged when `pat`
does not occur. -/
def replaceFirst (s pat : GoString) : GoString :=
  match firstIdx s pat with
  | none => s
  | some i => s.take i ++ s.drop (i + pat.length)

/-- Embeds Go `strings.TrimPrefix(s, pat)`. -/
def trimPrefixGo (s pat : GoString) : GoString :=
  if pat.isPrefixOf s then s.drop pat.length else s

/-- Embeds Go `path.Base`: `"."` for the empty path; otherwise strip
trailing slashes, then keep everything after the last slash; `"/"` when
nothing remains (the path consisted only of slashes). -/
def pathBase (s : GoString) : GoString :=
  if s = [] then gs "."
  else
    let s1 := (s.reverse.dropWhile (fun c => c = '/')).reverse
    let s2 := (s1.reverse.takeWhile (fun c => c ≠ '/')).reverse
    if s2 = [] then gs "/" else s2

/-- Embeds Go `path.Ext`: the suffix of the final path segment starting at
its last dot, or the empty string when the final segment has no dot. -/
def pathExt (s : GoString) : GoString :=
  let seg := s.reverse.takeWhile (fun c => c ≠ '/')
  if seg.any (fun c => c = '.') then '.' :: (seg.takeWhile (fun c => c ≠ '.')).reverse
  else []

/-- The ASCII upper-to-lower case table used by `asciiLower`. -/
def asciiLowerTable : List (Char × Char) :=
  [('A', 'a'), ('B', 'b'), ('C', 'c'), ('D', 'd'), ('E', 'e'), ('F', 'f'),
   ('G', 'g'), ('H', 'h'), ('I', 'i'), ('J', 'j'), ('K', 'k'), ('L', 'l'),
   ('M', 'm'), ('N', 'n'), ('O', 'o'), ('P', 'p'), ('Q', 'q'), ('R', 'r'),
   ('S', 's'), ('T', 't'), ('U', 'u'), ('V', 'v'), ('W', 'w'), ('X', 'x'),
   ('Y', 'y'), ('Z', 'z')]

/-- Embeds Go `strings.ToLower` on one character (the inputs of interest
are ASCII file extensions). -/
def asciiLower (c : Char) : Char :=
  match asciiLowerTable.find? (fun p => p.1 = c) with
  | some p => p.2
  | none => c

/-- Embeds Go `strings.ToLower` on a string. -/
def toLowerGo (s : GoString) : GoString := s.map asciiLower

/-- Whitespace characters trimmed by Go `strings.TrimSpace` (ASCII range). -/
def isSpaceChar (c : Char) : Bool :=
  c = ' ' ∨ c = '\t' ∨ c = '\n' ∨ c = Char.ofNat 11 ∨ c = Char.ofNat 12 ∨ c = '\r'

/-- Embeds Go `strings.TrimSpace` (on ASCII data). -/
def trimSpaceGo (s : GoString) : GoString :=
  ((s.dropWhile isSpaceChar).reverse.dropWhile isSpaceChar).reverse

/-- Configuration of the middleware (`GCSStaticConfig` in the source, minus
the GCS client handle and bucket name, which only parameterise the backend
collaborator and never influence the logic embedded here). -/
structure GCSStaticConfig where
  IgnorePath : List GoString
  IsSPA : Bool
  RootPath : GoString
  EnableCompression : Bool
  CompressionLevel : Int
  MinSizeForCompression : Int
deriving DecidableEq

/-- `FileResult` from the source: outcome of one GCS fetch.  The error is
modelled as `Option GoString` (`none` = Go `nil` error). -/
structure FileResult where
  Body : List Nat
  ContentType : GoString
  Size : Int
  Err : Option GoString
deriving DecidableEq

/-- The root-path normalisation inside `filePath` (source lines 161-167):
`rootPath[0]` panics on the empty string (modelled by the first `none`),
then a leading and a trailing `/` are added when missing.  The trailing
check reads `rootPath[len(rootPath)-1:]`, an access that is embedded as the
second `Option` match (provably never `none`, since by that point the
string is non-empty). -/
def goNormalizeRoot : GoString → Option GoString
  | [] => none
  | c0 :: rest =>
    let r1 := if c0 ≠ '/' then '/' :: c0 :: rest else c0 :: rest
    match r1.getLast? with
    | none => none
    | some cl => some (if cl ≠ '/' then r1 ++ ['/'] else r1)

/-- The prefix-stripping step of `filePath` (source line 168):
`strings.Replace(reqPath, rootPath, "", 1)` applied to the normalised root. -/
def candidateKey (reqPath rootPath : GoString) : Option GoString :=
  (goNormalizeRoot rootPath).map (fun r => replaceFirst reqPath r)

/-- The SPA branch of `filePath` (source lines 169-181): when the base of
the candidate contains no dot, either the root special case yields
`index.html` or `/index.html` is appended after trimming one leading `/`;
afterwards a base equal to `.` forces `index.html`. -/
def spaResolve (reqPath : GoString) : GoString :=
  let base := pathBase reqPath
  let p1 :=
    if ¬ containsSub base (gs ".") then
      if reqPath = gs "" ∨ reqPath = gs "/" then gs "index.html"
      else trimPrefixGo reqPath (gs "/") ++ gs "/index.html"
    else reqPath
  if base = gs "." then gs "index.html" else p1

/-- `filePath` from the source (lines 159-183): normalise the root, strip
its first occurrence from the request path, and apply the SPA resolution
when `IsSPA` is set.  `none` marks the out-of-bounds panic on an empty
configured root path. -/
def filePath (reqPath rootPath : GoString) (isSPA : Bool) : Option GoString :=
  (candidateKey reqPath rootPath).map (fun p => if isSPA then spaResolve p else p)

/-- `mimeTypeMap` from the source: the static extension-to-MIME table,
modelled as an association list (map iteration order never matters, only
key lookup). -/
def mimeTypeMap : List (GoString × GoString) :=
  [(gs ".html", gs "text/html"), (gs ".css", gs "text/css"),
   (gs ".js", gs "application/javascript"), (gs ".json", gs "application/json"),
   (gs ".png", gs "image/png"), (gs ".jpg", gs "image/jpeg"),
   (gs ".jpeg", gs "image/jpeg"), (gs ".gif", gs "image/gif"),
   (gs ".svg", gs "image/svg+xml"), (gs ".ico", gs "image/x-icon"),
   (gs ".txt", gs "text/plain"), (gs ".pdf", gs "application/pdf"),
   (gs ".woff", gs "font/woff"), (gs ".woff2", gs "font/woff2"),
   (gs ".ttf", gs "font/ttf"), (gs ".eot", gs "application/vnd.ms-fontobject")]

/-- Lookup in `mimeTypeMap` (the `mimeTypeMap[ext]` map access). -/
def lookupMime (ext : GoString) : Option GoString :=
  (mimeTypeMap.find? (fun e => e.1 = ext)).map (fun e => e.2)

/-- The query-string strip at the top of `getContentType` (source lines
210-212): cut at the first `?` when present. -/
def stripQuery (s : GoString) : GoString :=
  match firstIdx s (gs "?") with
  | some i => s.take i
  | none => s

/-- The parameter strip applied to the system MIME lookup's answer (source
lines 229-231): cut at the first `;` when present. -/
def paramStrip (s : GoString) : GoString :=
  match firstIdx s (gs ";") with
  | some i => s.take i
  | none => s

/-- The lowercase extension `getContentType` computes from its argument
(source line 214): `strings.ToLower(path.Ext(filePath))` after the query
strip. -/
def extKey (s : GoString) : GoString := toLowerGo (pathExt (stripQuery s))

/-- `getContentType` from the source (lines 208-236).  The `mime`
package's `TypeByExtension` is an external system table; it is a parameter
`sysMime` (returning `""` for an unknown extension, as the Go function
does). -/
def getContentType (sysMime : GoString → GoString) (filePath fallback : GoString) : GoString :=
  let ext := extKey filePath
  match lookupMime ext with
  | some mimeType => mimeType
  | none =>
    if fallback ≠ gs "" then fallback
    else
      let mimeType := sysMime ext
      if mimeType ≠ gs "" then trimSpaceGo (paramStrip mimeType)
      else gs "application/octet-stream"

/-- `getFiles` from the source (lines 293-309): one goroutine per path
sends its `FileResult` on a shared channel, and the collection loop writes
the i-th *received* result into `results[i]`.  The channel delivers the
results in goroutine completion order, so the observable behaviour is
parameterised by `order`, the list of input indices in completion order (a
permutation of `List.range paths.length`); `results[i]` is the fetch of
`paths[order[i]]`. -/
def getFiles (fetch : GoString → FileResult) (paths : List GoString) (order : List Nat) :
    List FileResult :=
  order.map (fun j => fetch (paths.getD j (gs "")))

/-- The effective gzip level of `compressData` (source lines 318-321): the
configured level, with `0` replaced by the default `6`. -/
def effLevel (cfg : GCSStaticConfig) : Int :=
  if cfg.CompressionLevel = 0 then 6 else cfg.CompressionLevel

/-- `compressData` from the source (lines 312-342).  gzip encoding itself
is the `compress/gzip` library, a parameter `gzipFn` taking the body and
the level; writes to an in-memory buffer never fail, so the `gzip` case
succeeds whenever the writer exists.  `gzip.NewWriterLevel` rejects a
level outside `[-2, 9]`, and because its error is discarded (`writer, _ =`)
the subsequent `writer.Write` dereferences a nil writer: that panic is the
`none` case.  `br` always yields the unimplemented-feature error and any
other encoding the unsupported-encoding error. -/
def compressData (gzipFn : List Nat → Int → List Nat) (cfg : GCSStaticConfig)
    (data : List Nat) (encoding : GoString) : Option (Except GoString (List Nat)) :=
  if encoding = gs "gzip" then
    if -2 ≤ effLevel cfg ∧ effLevel cfg ≤ 9 then
      some (Except.ok (gzipFn data (effLevel cfg)))
    else none
  else if encoding = gs "br" then
    some (Except.error (gs "brotli compression not implemented"))
  else
    some (Except.error (gs "unsupported encoding: " ++ encoding))

/-- The `compressibleTypes` set from `shouldCompress` (source lines
354-364), modelled as the list of its keys (all mapped to `true`). -/
def compressibleTypes : List GoString :=
  [gs "text/html", gs "text/css", gs "text/plain", gs "text/xml",
   gs "application/javascript", gs "application/json", gs "application/xml",
   gs "application/x-javascript", gs "application/ld+json"]

/-- `shouldCompress` from the source (lines 345-367): false when
compression is disabled or the size is below the configured minimum;
otherwise the `compressibleTypes[contentType]` map access, which yields
`false` for any absent key. -/
def shouldCompress (cfg : GCSStaticConfig) (contentType : GoString) (size : Int) : Bool :=
  if ¬ cfg.EnableCompression then false
  else if size < cfg.MinSizeForCompression then false
  else compressibleTypes.contains contentType

/-- An HTTP response as written by the handler: status, content type, body
and the headers the middleware sets.  `contentLength` is `none` for the
`NoContent` 404 path, which writes no body. -/
structure HttpResponse where
  status : Nat
  contentType : GoString
  body : List Nat
  contentEncoding : Option GoString
  vary : Option GoString
  contentLength : Option Int
deriving DecidableEq

/-- The 404 branch: `c.NoContent(http.StatusNotFound)`. -/
def notFoundResponse : HttpResponse :=
  { status := 404, contentType := gs "", body := [], contentEncoding := none,
    vary := none, contentLength := none }

/-- The body-selection, compression and response-writing tail of
`ServerHeader` (source lines 111-146), given the primary fetch's result
(`results[0]` as the orchestrator reads it) and the `index.html` fallback
fetch's result (`results[1]`, read only in SPA mode — outside SPA mode no
fallback fetch exists and the argument is never consulted).  `none` marks
the nil-gzip-writer panic propagated out of `compressData`. -/
def respond (gzipFn : List Nat → Int → List Nat) (cfg : GCSStaticConfig)
    (acceptEncoding : GoString) (fileResult indexResult : FileResult) :
    Option HttpResponse :=
  if fileResult.Err.isSome then
    if cfg.IsSPA then
      if indexResult.Err.isSome then some notFoundResponse
      else
        some { status := 200, contentType := indexResult.ContentType,
               body := indexResult.Body, contentEncoding := none, vary := none,
               contentLength := some indexResult.Size }
    else some notFoundResponse
  else
    let plain : HttpResponse :=
      { status := 200, contentType := fileResult.ContentType,
        body := fileResult.Body, contentEncoding := none, vary := none,
        contentLength := some fileResult.Size }
    if shouldCompress cfg fileResult.ContentType fileResult.Size then
      let encoding :=
        if containsSub acceptEncoding (gs "br") then gs "br"
        else if containsSub acceptEncoding (gs "gzip") then gs "gzip"
        else gs ""
      if encoding ≠ gs "" then
        match compressData gzipFn cfg fileResult.Body encoding with
        | none => none
        | some (Except.ok compressed) =>
          some { status := 200, contentType := fileResult.ContentType,
                 body := compressed, contentEncoding := some encoding,
                 vary := some (gs "Accept-Encoding"),
                 contentLength := some (Int.ofNat compressed.length) }
        | some (Except.error _) => some plain
      else some plain
    else some plain

theorem firstIdx_sanity : firstIdx (gs "abcbc") (gs "bc") = some 1 := by decide

theorem getContentType_sanity :
    getContentType (fun _ => gs "") (gs "index.html") (gs "") = gs "text/html" ∧
      getContentType (fun _ => gs "") (gs "photo.JPG") (gs "") = gs "image/jpeg" ∧
      getContentType (fun _ => gs "") (gs "data.xyz") (gs "application/custom") =
        gs "application/custom" ∧
      getContentType (fun _ => gs "") (gs "data.unknown") (gs "") =
        gs "application/octet-stream" ∧
      getContentType (fun _ => gs "") (gs "README") (gs "text/plain") = gs "text/plain" ∧
      getContentType (fun _ => gs "") (gs "/static/css/styles.css") (gs "") = gs "text/css" ∧
      getContentType (fun _ => gs "") (gs "styles.css?v=1.2.3") (gs "") = gs "text/css" := by
  decide

theorem filePath_sanity :
    filePath (gs "/static/css/style.css") (gs "/static/") false = some (gs "css/style.css") ∧
      filePath (gs "/static/css/style.css") (gs "/static") false = some (gs "css/style.css") ∧
      filePath (gs "/static/css/style.css") (gs "static/") false = some (gs "css/style.css") ∧
      filePath (gs "/app/dashboard") (gs "/app/") true = some (gs "dashboard/index.html") ∧
      filePath (gs "/app/main.js") (gs "/app/") true = some (gs "main.js") ∧
      filePath (gs "/content/page") (gs "/content/") false = some (gs "page") ∧
      filePath (gs "/css/style.css") (gs "/") false = some (gs "css/style.css") ∧
      filePath (gs "/app/admin/settings") (gs "/app/") true = some (gs "admin/settings/index.html") ∧
      filePath (gs "/static/js/app.js?v=1.2.3") (gs "/static/") false = some (gs "js/app.js?v=1.2.3") ∧
      filePath (gs "/app/") (gs "/app/") true = some (gs "index.html") := by decide

theorem pathBase_sanity :
    pathBase (gs "a/b/c.js") = gs "c.js" ∧ pathBase (gs "") = gs "." ∧
      pathBase (gs "/") = gs "/" ∧ pathBase (gs "a/b/") = gs "b" := by decide

theorem pathExt_sanity :
    pathExt (gs "a/b.c.js") = gs ".js" ∧ pathExt (gs "a.b/c") = gs "" := by decide

/-- A backend fetch used to distinguish which key a result came from: the
result records the fetched key in its `ContentType` field and succeeds. -/
def demoFetch (p : GoString) : FileResult :=
  { Body := [], ContentType := p, Size := 0, Err := none }

/-- Claim C1.  For every non-empty list of object keys, `getFiles` is
claimed to return the result of fetching key `i` at index `i` — input
order — for every possible completion order of the concurrent fetches.
The code instead writes the i-th *received* channel value into
`results[i]`: under the completion order in which the `index.html`
goroutine finishes before the primary one (the index list `[1, 0]`, a
permutation of `range 2`), `results[0]` is the `index.html` fetch, not the
primary key's fetch.  This theorem evaluates the embedded `getFiles` at
that failing input. -/
theorem getFiles_completion_order_mismatch :
    List.Perm [1, 0] (List.range 2) ∧
      getFiles demoFetch [gs "main.js", gs "index.html"] [1, 0] =
        [demoFetch (gs "index.html"), demoFetch (gs "main.js")] ∧
      (getFiles demoFetch [gs "main.js", gs "index.html"] [1, 0])[0]? ≠
        some (demoFetch (gs "main.js")) := by
  decide

/-- Claim C6.  `shouldCompress` is true exactly when compression is
enabled, the size meets or exceeds the configured minimum, and the content
type belongs to the static compressible-type set; image, font, generic
binary and empty content types always yield false. -/
theorem shouldCompress_characterisation (cfg : GCSStaticConfig) (ct : GoString) (size : Int) :
    (shouldCompress cfg ct size = true ↔
        cfg.EnableCompression = true ∧ cfg.MinSizeForCompression ≤ size ∧
          ct ∈ compressibleTypes) ∧
      shouldCompress cfg (gs "image/png") size = false ∧
      shouldCompress cfg (gs "image/jpeg") size = false ∧
      shouldCompress cfg (gs "image/gif") size = false ∧
      shouldCompress cfg (gs "image/svg+xml") size = false ∧
      shouldCompress cfg (gs "image/x-icon") size = false ∧
      shouldCompress cfg (gs "font/woff") size = false ∧
      shouldCompress cfg (gs "font/woff2") size = false ∧
      shouldCompress cfg (gs "font/ttf") size = false ∧
      shouldCompress cfg (gs "application/vnd.ms-fontobject") size = false ∧
      shouldCompress cfg (gs "application/octet-stream") size = false ∧
      shouldCompress cfg (gs "") size = false := by
  have hmain : ∀ t : GoString, shouldCompress cfg t size = true ↔
      cfg.EnableCompression = true ∧ cfg.MinSizeForCompression ≤ size ∧
        t ∈ compressibleTypes := by
    intro t
    unfold shouldCompress
    by_cases he : cfg.EnableCompression = true
    · by_cases hs : size < cfg.MinSizeForCompression
      · rw [if_neg (not_not_intro he), if_pos hs]
        constructor
        · intro h; exact absurd h (by simp)
        · rintro ⟨-, hle, -⟩; omega
      · rw [if_neg (not_not_intro he), if_neg hs]
        rw [List.elem_iff]
        constructor
        · intro h; exact ⟨he, by omega, h⟩
        · rintro ⟨-, -, hmem⟩; exact hmem
    · rw [if_pos he]
      constructor
      · intro h; exact absurd h (by simp)
      · rintro ⟨h, -, -⟩; exact absurd h he
  have hoff : ∀ t : GoString, t ∉ compressibleTypes → shouldCompress cfg t size = false := by
    intro t ht
    cases h : shouldCompress cfg t size
    · rfl
    · exact absurd ((hmain t).mp h).2.2 ht
  exact ⟨hmain ct, hoff _ (by decide), hoff _ (by decide), hoff _ (by decide),
    hoff _ (by decide), hoff _ (by decide), hoff _ (by decide), hoff _ (by decide),
    hoff _ (by decide), hoff _ (by decide), hoff _ (by decide), hoff _ (by decide)⟩

/-- Claim C7.  `compressData` with `br` always returns the
unimplemented-feature error; any encoding other than `gzip` and `br`
returns the unsupported-encoding error; `gzip` (for a configured level in
the documented range, `0` meaning unset) succeeds using the configured
level, substituting level 6 when the configured level is 0. -/
theorem compressData_encodings (gzipFn : List Nat → Int → List Nat)
    (cfg : GCSStaticConfig) (data : List Nat) (enc : GoString)
    (h0 : 0 ≤ cfg.CompressionLevel) (h9 : cfg.CompressionLevel ≤ 9) :
    compressData gzipFn cfg data (gs "br") =
        some (Except.error (gs "brotli compression not implemented")) ∧
      (enc ≠ gs "gzip" → enc ≠ gs "br" →
        compressData gzipFn cfg data enc =
          some (Except.error (gs "unsupported encoding: " ++ enc))) ∧
      compressData gzipFn cfg data (gs "gzip") =
        some (Except.ok (gzipFn data
          (if cfg.CompressionLevel = 0 then 6 else cfg.CompressionLevel))) := by
  refine ⟨?_, ?_, ?_⟩
  · unfold compressData
    rw [if_neg (by decide), if_pos rfl]
  · intro h1 h2
    unfold compressData
    rw [if_neg h1, if_neg h2]
  · unfold compressData
    rw [if_pos rfl, if_pos ?_]
    · rfl
    · unfold effLevel; split <;> omega

/-- Witness for claim C7 at a concrete configuration with level 0 (treated
as unset, so gzip runs at level 6) and at the unrecognised encoding
`deflate`. -/
theorem compressData_encodings_witness :
    compressData (fun d _ => d) ⟨[], false, gs "/", true, 0, 100⟩ [1, 2] (gs "gzip") =
        some (Except.ok [1, 2]) ∧
      compressData (fun d _ => d) ⟨[], false, gs "/", true, 0, 100⟩ [1, 2] (gs "deflate") =
        some (Except.error (gs "unsupported encoding: " ++ gs "deflate")) := by
  have h := compressData_encodings (fun d _ => d) ⟨[], false, gs "/", true, 0, 100⟩
    [1, 2] (gs "deflate") (by decide) (by decide)
  exact ⟨h.2.2, h.2.1 (by decide) (by decide)⟩

/-- Claim C9.  Path resolution is total exactly under a non-empty
configured root path: with an empty `RootPath` the `rootPath[0]` access is
out of bounds and resolution fails (panics) at access time for every
request and mode, while with a non-empty `RootPath` every string access
the resolver takes is in bounds and a key is always produced. -/
theorem filePath_total_iff_root_nonempty (reqPath rootPath : GoString) (isSPA : Bool) :
    filePath reqPath (gs "") isSPA = none ∧
      (rootPath ≠ [] → ∃ k, filePath reqPath rootPath isSPA = some k) := by
  constructor
  · rfl
  · intro hr
    cases rootPath with
    | nil => exact absurd rfl hr
    | cons c0 rest =>
      have hr1 : (if c0 ≠ '/' then '/' :: c0 :: rest else c0 :: rest) ≠ [] := by
        split <;> simp
      obtain ⟨cl, hcl⟩ :=
        Option.isSome_iff_exists.mp (List.getLast?_isSome.mpr hr1)
      have hnorm : (goNormalizeRoot (c0 :: rest)).isSome := by
        unfold goNormalizeRoot
        simp only [hcl]
        rfl
      obtain ⟨n, hn⟩ := Option.isSome_iff_exists.mp hnorm
      exact ⟨_, by unfold filePath candidateKey; rw [hn]; rfl⟩

/-- Witness for claim C9: the single-slash root path is non-empty, and
resolution of a concrete request against it produces a key. -/
theorem filePath_total_iff_root_nonempty_witness :
    gs "/" ≠ [] ∧ ∃ k, filePath (gs "/x.js") (gs "/") false = some k :=
  ⟨by decide,
    (filePath_total_iff_root_nonempty (gs "/x.js") (gs "/") false).2 (by decide)⟩

/-- Claim C10.  Whenever the request's Accept-Encoding value contains the
substring `br` (so also for values such as `br, gzip` or `brotli`) and the
primary fetch succeeded, the delivered response is the uncompressed body
with no Content-Encoding header: the orchestrator selects `br` before even
looking for `gzip`, the brotli encoder always errors, and the error falls
through to uncompressed delivery without retrying gzip. -/
theorem respond_br_never_compresses (gzipFn : List Nat → Int → List Nat)
    (cfg : GCSStaticConfig) (ae : GoString) (primary idx : FileResult)
    (hbr : containsSub ae (gs "br") = true) (hok : primary.Err = none) :
    respond gzipFn cfg ae primary idx =
      some { status := 200, contentType := primary.ContentType,
             body := primary.Body, contentEncoding := none, vary := none,
             contentLength := some primary.Size } := by
  unfold respond
  rw [hok]
  rw [if_neg (by simp)]
  by_cases hsc : shouldCompress cfg primary.ContentType primary.Size = true
  · rw [if_pos hsc, if_pos hbr, if_pos (by decide)]
    rw [show compressData gzipFn cfg primary.Body (gs "br") =
          some (Except.error (gs "brotli compression not implemented")) from by
        unfold compressData; rw [if_neg (by decide), if_pos rfl]]
  · rw [if_neg hsc]

/-- Witness for claim C10: a compressible, large enough `text/html` body
with Accept-Encoding `br, gzip` (gzip also accepted) is delivered
uncompressed and without a Content-Encoding header. -/
theorem respond_br_never_compresses_witness :
    containsSub (gs "br, gzip") (gs "br") = true ∧
      shouldCompress ⟨[], true, gs "/", true, 6, 10⟩ (gs "text/html") 2048 = true ∧
      respond (fun d _ => d) ⟨[], true, gs "/", true, 6, 10⟩ (gs "br, gzip")
          ⟨[7, 7], gs "text/html", 2048, none⟩ ⟨[], gs "", 0, none⟩ =
        some { status := 200, contentType := gs "text/html", body := [7, 7],
               contentEncoding := none, vary := none, contentLength := some 2048 } :=
  ⟨by decide, by decide,
    respond_br_never_compresses (fun d _ => d) ⟨[], true, gs "/", true, 6, 10⟩
      (gs "br, gzip") ⟨[7, 7], gs "text/html", 2048, none⟩ ⟨[], gs "", 0, none⟩
      (by decide) rfl⟩

theorem spaResolve_of_no_dot (c : GoString)
    (h : containsSub (pathBase c) (gs ".") = false) :
    spaResolve c =
      if c = gs "" ∨ c = gs "/" then gs "index.html"
      else trimPrefixGo c (gs "/") ++ gs "/index.html" := by
  have hne : pathBase c ≠ gs "." := by
    intro he
    rw [he] at h
    exact absurd h (by decide)
  unfold spaResolve
  rw [if_neg hne, if_pos (by simp [h])]

theorem spaResolve_of_dot_base (c : GoString) (h : pathBase c = gs ".") :
    spaResolve c = gs "index.html" := by
  unfold spaResolve
  rw [if_pos h]

theorem spaResolve_of_empty_or_root (c : GoString) (h : c = gs "" ∨ c = gs "/") :
    spaResolve c = gs "index.html" := by
  rcases h with h | h <;> subst h <;> decide

theorem filePath_spa_eq (reqPath rootPath c : GoString)
    (hc : candidateKey reqPath rootPath = some c) :
    filePath reqPath rootPath true = some (spaResolve c) := by
  unfold filePath
  rw [hc]
  rfl

/-- Claim C3.  With SPA mode enabled: when the candidate key left by
root-prefix stripping has a final segment containing no dot, the resolver
appends `/index.html` after removing the leading separator; an empty or
root-only candidate, and a candidate whose final segment is exactly `.`,
resolve directly to the key `index.html`. -/
theorem filePath_spa_resolution (reqPath rootPath c : GoString)
    (hc : candidateKey reqPath rootPath = some c) :
    (containsSub (pathBase c) (gs ".") = false →
        filePath reqPath rootPath true =
          some (if c = gs "" ∨ c = gs "/" then gs "index.html"
                else trimPrefixGo c (gs "/") ++ gs "/index.html")) ∧
      (pathBase c = gs "." → filePath reqPath rootPath true = some (gs "index.html")) ∧
      ((c = gs "" ∨ c = gs "/") → filePath reqPath rootPath true = some (gs "index.html")) := by
  have hf := filePath_spa_eq reqPath rootPath c hc
  refine ⟨fun h => ?_, fun h => ?_, fun h => ?_⟩
  · rw [hf, spaResolve_of_no_dot c h]
  · rw [hf, spaResolve_of_dot_base c h]
  · rw [hf, spaResolve_of_empty_or_root c h]

/-- Witness for claim C3: the route-like request `/app/dashboard` under
root `/app/` leaves candidate `dashboard` (no dot) and resolves to
`dashboard/index.html`; the root request itself resolves to `index.html`
with no leading separator. -/
theorem filePath_spa_resolution_witness :
    candidateKey (gs "/app/dashboard") (gs "/app/") = some (gs "dashboard") ∧
      filePath (gs "/app/dashboard") (gs "/app/") true = some (gs "dashboard/index.html") ∧
      filePath (gs "/app/") (gs "/app/") true = some (gs "index.html") := by
  refine ⟨by decide, ?_, ?_⟩
  · have h := (filePath_spa_resolution (gs "/app/dashboard") (gs "/app/") (gs "dashboard")
      (by decide)).1 (by decide)
    rw [h]
    decide
  · exact (filePath_spa_resolution (gs "/app/") (gs "/app/") (gs "")
      (by decide)).2.2 (Or.inl rfl)

/-- Counterexample to claim C8 as stated: the candidate `foo/.` has a
final segment (`.`) that does contain a dot, yet SPA resolution does not
leave it unchanged — the `base == "."` special case rewrites it to
`index.html`, while plain prefix stripping (non-SPA mode) leaves
`foo/.`. -/
theorem filePath_spa_filelike_counterexample :
    containsSub (pathBase (gs "foo/.")) (gs ".") = true ∧
      candidateKey (gs "/foo/.") (gs "/") = some (gs "foo/.") ∧
      filePath (gs "/foo/.") (gs "/") true = some (gs "index.html") ∧
      filePath (gs "/foo/.") (gs "/") false = some (gs "foo/.") ∧
      gs "index.html" ≠ gs "foo/." := by
  decide

/-- Claim C8 as amended.  SPA resolution is idempotent on file-like keys
other than the bare current-directory marker: for every candidate key
whose final segment contains a dot and is not exactly `.`, SPA-mode
resolution returns the key unchanged apart from root-prefix stripping (so
a key already ending in `index.html` is never suffixed again). -/
theorem filePath_spa_filelike_unchanged (reqPath rootPath c : GoString)
    (hc : candidateKey reqPath rootPath = some c)
    (hdot : containsSub (pathBase c) (gs ".") = true)
    (hnd : pathBase c ≠ gs ".") :
    filePath reqPath rootPath true = some c ∧
      filePath reqPath rootPath true = filePath reqPath rootPath false := by
  have hs : spaResolve c = c := by
    unfold spaResolve
    rw [if_neg hnd, if_neg (not_not_intro hdot)]
  have hf := filePath_spa_eq reqPath rootPath c hc
  have hfn : filePath reqPath rootPath false = some c := by
    unfold filePath
    rw [hc]
    rfl
  rw [hf, hs, hfn]
  exact ⟨rfl, rfl⟩

/-- Witness for claim C8 (amended): the file-like request `/app/main.js`
is left unchanged by SPA resolution apart from prefix stripping, and a key
already ending in `index.html` is not suffixed again. -/
theorem filePath_spa_filelike_unchanged_witness :
    containsSub (pathBase (gs "main.js")) (gs ".") = true ∧
      filePath (gs "/app/main.js") (gs "/app/") true = some (gs "main.js") ∧
      filePath (gs "/app/sub/index.html") (gs "/app/") true = some (gs "sub/index.html") := by
  refine ⟨by decide, ?_, ?_⟩
  · exact (filePath_spa_filelike_unchanged (gs "/app/main.js") (gs "/app/") (gs "main.js")
      (by decide) (by decide) (by decide)).1
  · exact (filePath_spa_filelike_unchanged (gs "/app/sub/index.html") (gs "/app/")
      (gs "sub/index.html") (by decide) (by decide) (by decide)).1

/-- The non-SPA resolution as the specification's testable property words
it: the normalised root `n` removed from `p` *as a prefix* exactly once.
Modelled from the spec for comparison with the source's first-occurrence
behaviour. -/
def specPrefixStrip (p n : GoString) : GoString :=
  if n.isPrefixOf p then p.drop n.length else p

theorem goNormalizeRoot_some (r : GoString) (hr : r ≠ []) :
    ∃ n, goNormalizeRoot r = some n ∧ n.head? = some '/' ∧ n.getLast? = some '/' := by
  cases r with
  | nil => exact absurd rfl hr
  | cons c0 rest =>
    by_cases hc : c0 = '/'
    · subst hc
      have hr1 : (if ('/' : Char) ≠ '/' then '/' :: '/' :: rest else '/' :: rest) =
          '/' :: rest := by simp
      obtain ⟨cl, hcl⟩ := Option.isSome_iff_exists.mp
        (List.getLast?_isSome.mpr (show ('/' :: rest : GoString) ≠ [] by simp))
      by_cases hl : cl = '/'
      · subst hl
        refine ⟨'/' :: rest, ?_, by simp, hcl⟩
        simp only [goNormalizeRoot, hr1, hcl]
        simp
      · refine ⟨('/' :: rest) ++ ['/'], ?_, by simp, by rw [List.getLast?_concat]⟩
        simp only [goNormalizeRoot, hr1, hcl]
        simp [hl]
    · have hr1 : (if c0 ≠ '/' then '/' :: c0 :: rest else c0 :: rest) =
          '/' :: c0 :: rest := by simp [hc]
      obtain ⟨cl, hcl⟩ := Option.isSome_iff_exists.mp
        (List.getLast?_isSome.mpr (show ('/' :: c0 :: rest : GoString) ≠ [] by simp))
      by_cases hl : cl = '/'
      · subst hl
        refine ⟨'/' :: c0 :: rest, ?_, by simp, hcl⟩
        simp only [goNormalizeRoot, hr1, hcl]
        simp
      · refine ⟨('/' :: c0 :: rest) ++ ['/'], ?_, by simp, by rw [List.getLast?_concat]⟩
        simp only [goNormalizeRoot, hr1, hcl]
        simp [hl]

theorem goNormalizeRoot_normalized (n : GoString)
    (h1 : n.head? = some '/') (h2 : n.getLast? = some '/') :
    goNormalizeRoot n = some n := by
  cases n with
  | nil => simp at h1
  | cons c0 rest =>
    have hc0 : c0 = '/' := by simpa using h1
    subst hc0
    have hr1 : (if ('/' : Char) ≠ '/' then '/' :: '/' :: rest else '/' :: rest) =
        '/' :: rest := by simp
    simp only [goNormalizeRoot, hr1, h2]
    simp

theorem replaceFirst_at_front (p n : GoString) (hn : n ≠ []) (h : n.isPrefixOf p) :
    replaceFirst p n = p.drop n.length := by
  cases p with
  | nil =>
    have : n = [] := by simpa using (List.isPrefixOf_iff_prefix.mp h)
    exact absurd this hn
  | cons a t =>
    unfold replaceFirst firstIdx
    rw [if_pos h]
    simp

/-- Counterexample to claim C4 as stated: with root `static` (normalised
to `/static/`) and request path `/a/static/b`, the resolver removes the
*first occurrence* of `/static/`, which here is not a prefix, producing
`/ab`; removing the normalised root as a prefix would leave the path
unchanged. -/
theorem filePath_prefix_strip_counterexample :
    goNormalizeRoot (gs "static") = some (gs "/static/") ∧
      filePath (gs "/a/static/b") (gs "static") false = some (gs "/ab") ∧
      specPrefixStrip (gs "/a/static/b") (gs "/static/") = gs "/a/static/b" ∧
      gs "/ab" ≠ gs "/a/static/b" := by
  decide

/-- Claim C4 as amended.  In non-SPA mode the resolver returns `p` with
the first occurrence of the normalised root (leading and trailing `/`
added when missing) removed — which coincides with prefix removal exactly
when the normalised root occurs as a prefix of `p` — and the result is the
same whether the root was supplied with or without its enclosing
separators. -/
theorem filePath_first_occurrence_strip (p r : GoString) (hr : r ≠ []) :
    ∃ n, goNormalizeRoot r = some n ∧
      filePath p r false = some (replaceFirst p n) ∧
      filePath p n false = filePath p r false ∧
      (n.isPrefixOf p → replaceFirst p n = specPrefixStrip p n) := by
  obtain ⟨n, hn, hhead, hlast⟩ := goNormalizeRoot_some r hr
  have hne : n ≠ [] := by
    intro he
    rw [he] at hhead
    simp at hhead
  have hfr : filePath p r false = some (replaceFirst p n) := by
    unfold filePath candidateKey
    rw [hn]
    rfl
  have hfn : filePath p n false = some (replaceFirst p n) := by
    unfold filePath candidateKey
    rw [goNormalizeRoot_normalized n hhead hlast]
    rfl
  refine ⟨n, hn, hfr, by rw [hfn, hfr], fun hpre => ?_⟩
  rw [replaceFirst_at_front p n hne hpre]
  unfold specPrefixStrip
  rw [if_pos hpre]

/-- Witness for claim C4 (amended) at root `static` supplied without its
enclosing separators and a request where the normalised root is a genuine
prefix. -/
theorem filePath_first_occurrence_strip_witness :
    gs "static" ≠ [] ∧
      ∃ n, goNormalizeRoot (gs "static") = some n ∧
        filePath (gs "/static/css/style.css") (gs "static") false =
          some (replaceFirst (gs "/static/css/style.css") n) ∧
        filePath (gs "/static/css/style.css") n false =
          filePath (gs "/static/css/style.css") (gs "static") false ∧
        (n.isPrefixOf (gs "/static/css/style.css") →
          replaceFirst (gs "/static/css/style.css") n =
            specPrefixStrip (gs "/static/css/style.css") n) :=
  ⟨by decide, filePath_first_occurrence_strip (gs "/static/css/style.css") (gs "static")
    (by decide)⟩

/-- Claim C2.  For a non-bypassed request (given the primary fetch's
result and, for SPA mode, the `index.html` fallback fetch's result): a
successful primary fetch yields HTTP 200 with the primary object's body
(possibly gzip-encoded, which the Content-Encoding header then records)
and its content type; a failed primary fetch with SPA mode on and a
successful fallback yields HTTP 200 (not a redirect) with the fallback
object's body; every other failure yields HTTP 404 with an empty body; in
all cases a response is produced — the backend error value itself is
absorbed and never returned to the caller.  The level hypothesis keeps the
configured compression level inside its documented range (`0` = unset),
ruling out the nil-gzip-writer panic. -/
theorem respond_select_body (gzipFn : List Nat → Int → List Nat)
    (cfg : GCSStaticConfig) (ae : GoString) (primary idx : FileResult)
    (h0 : 0 ≤ cfg.CompressionLevel) (h9 : cfg.CompressionLevel ≤ 9) :
    ∃ r, respond gzipFn cfg ae primary idx = some r ∧
      (primary.Err = none →
        r.status = 200 ∧ r.contentType = primary.ContentType ∧
          (r.body = primary.Body ∨
            (r.contentEncoding = some (gs "gzip") ∧
              r.body = gzipFn primary.Body (effLevel cfg)))) ∧
      (primary.Err ≠ none → cfg.IsSPA = true → idx.Err = none →
        r.status = 200 ∧ r.contentType = idx.ContentType ∧ r.body = idx.Body) ∧
      (primary.Err ≠ none → (cfg.IsSPA = false ∨ idx.Err ≠ none) →
        r.status = 404 ∧ r.body = []) := by
  cases hp : primary.Err with
  | some e =>
    have hps : primary.Err.isSome = true := by rw [hp]; rfl
    cases hspa : cfg.IsSPA with
    | false =>
      refine ⟨notFoundResponse, ?_, ?_, ?_, ?_⟩
      · unfold respond
        rw [if_pos hps, if_neg (by rw [hspa]; exact Bool.false_ne_true)]
      · intro h; exact absurd h (by simp)
      · intro _ h; exact absurd h (by simp)
      · intro _ _; exact ⟨rfl, rfl⟩
    | true =>
      cases hi : idx.Err with
      | some e2 =>
        refine ⟨notFoundResponse, ?_, ?_, ?_, ?_⟩
        · unfold respond
          rw [if_pos hps, if_pos hspa, if_pos (by rw [hi]; rfl)]
        · intro h; exact absurd h (by simp)
        · intro _ _ h; exact absurd h (by simp)
        · intro _ _; exact ⟨rfl, rfl⟩
      | none =>
        refine ⟨⟨200, idx.ContentType, idx.Body, none, none, some idx.Size⟩, ?_, ?_, ?_, ?_⟩
        · unfold respond
          rw [if_pos hps, if_pos hspa, if_neg (by rw [hi]; simp)]
        · intro h; exact absurd h (by simp)
        · intro _ _ _; exact ⟨rfl, rfl, rfl⟩
        · intro _ h
          rcases h with h | h
          · exact absurd h (by simp)
          · exact absurd rfl h
  | none =>
    have hps : ¬ primary.Err.isSome = true := by rw [hp]; simp
    by_cases hsc : shouldCompress cfg primary.ContentType primary.Size = true
    · by_cases hbr : containsSub ae (gs "br") = true
      · -- selects br, compression errors, falls through to the plain body
        refine ⟨⟨200, primary.ContentType, primary.Body, none, none, some primary.Size⟩,
          ?_, ?_, ?_, ?_⟩
        · unfold respond
          rw [if_neg hps, if_pos hsc, if_pos hbr, if_pos (by decide)]
          rw [show compressData gzipFn cfg primary.Body (gs "br") =
                some (Except.error (gs "brotli compression not implemented")) from by
              unfold compressData; rw [if_neg (by decide), if_pos rfl]]
        · intro _; exact ⟨rfl, rfl, Or.inl rfl⟩
        · intro h; exact absurd rfl h
        · intro h; exact absurd rfl h
      · by_cases hgz : containsSub ae (gs "gzip") = true
        · -- selects gzip, which succeeds at the effective level
          have hcd : compressData gzipFn cfg primary.Body (gs "gzip") =
              some (Except.ok (gzipFn primary.Body (effLevel cfg))) := by
            unfold compressData
            rw [if_pos rfl, if_pos (by unfold effLevel; split <;> omega)]
          have henc : (if containsSub ae (gs "br") = true then gs "br"
              else if containsSub ae (gs "gzip") = true then gs "gzip" else gs "") =
                gs "gzip" := by
            rw [if_neg hbr, if_pos hgz]
          refine ⟨⟨200, primary.ContentType, gzipFn primary.Body (effLevel cfg),
            some (gs "gzip"), some (gs "Accept-Encoding"),
            some (Int.ofNat (gzipFn primary.Body (effLevel cfg)).length)⟩, ?_, ?_, ?_, ?_⟩
          · unfold respond
            rw [if_neg hps, if_pos hsc, henc, if_pos (by decide), hcd]
          · intro _; exact ⟨rfl, rfl, Or.inr ⟨rfl, rfl⟩⟩
          · intro h; exact absurd rfl h
          · intro h; exact absurd rfl h
        · -- no acceptable encoding: plain delivery
          refine ⟨⟨200, primary.ContentType, primary.Body, none, none, some primary.Size⟩,
            ?_, ?_, ?_, ?_⟩
          · unfold respond
            rw [if_neg hps, if_pos hsc,
              if_neg (show ¬ ((if containsSub ae (gs "br") then gs "br"
                  else if containsSub ae (gs "gzip") then gs "gzip" else gs "") ≠ gs "") from by
                rw [if_neg (by simp [hbr]), if_neg (by simp [hgz])]
                simp)]
          · intro _; exact ⟨rfl, rfl, Or.inl rfl⟩
          · intro h; exact absurd rfl h
          · intro h; exact absurd rfl h
    · refine ⟨⟨200, primary.ContentType, primary.Body, none, none, some primary.Size⟩,
        ?_, ?_, ?_, ?_⟩
      · unfold respond
        rw [if_neg hps, if_neg hsc]
      · intro _; exact ⟨rfl, rfl, Or.inl rfl⟩
      · intro h; exact absurd rfl h
      · intro h; exact absurd rfl h

/-- Witness for claim C2: with SPA off and a failed primary fetch, the
handler produces the 404 response with an empty body (and no error value
escapes). -/
theorem respond_select_body_witness :
    ∃ r, respond (fun d _ => d) ⟨[], false, gs "/", true, 6, 0⟩ (gs "gzip")
        ⟨[], gs "", 0, some (gs "storage: object does not exist")⟩
        ⟨[], gs "", 0, none⟩ = some r ∧ r.status = 404 ∧ r.body = [] := by
  obtain ⟨r, hr, -, -, h3⟩ := respond_select_body (fun d _ => d)
    ⟨[], false, gs "/", true, 6, 0⟩ (gs "gzip")
    ⟨[], gs "", 0, some (gs "storage: object does not exist")⟩
    ⟨[], gs "", 0, none⟩ (by decide) (by decide)
  exact ⟨r, hr, h3 (by simp) (Or.inl rfl)⟩

theorem gs_qmark : gs "?" = ['?'] := rfl

theorem asciiLower_idem (c : Char) : asciiLower (asciiLower c) = asciiLower c := by
  cases h : asciiLowerTable.find? (fun p => p.1 = c) with
  | none =>
    have h1 : asciiLower c = c := by unfold asciiLower; rw [h]
    rw [h1]
    exact h1
  | some p =>
    have h2 : asciiLower c = p.2 := by unfold asciiLower; rw [h]
    have hall : ∀ q ∈ asciiLowerTable, asciiLower q.2 = q.2 := by decide
    rw [h2]
    exact hall p (List.mem_of_find?_eq_some h)

theorem asciiLower_fixed (c₀ : Char)
    (hk : ∀ q ∈ asciiLowerTable, ¬ q.1 = c₀)
    (hv : ∀ q ∈ asciiLowerTable, ¬ q.2 = c₀) (c : Char) :
    asciiLower c = c₀ ↔ c = c₀ := by
  constructor
  · intro h
    unfold asciiLower at h
    cases hf : asciiLowerTable.find? (fun p => p.1 = c) with
    | none => rwa [hf] at h
    | some p =>
      rw [hf] at h
      exact absurd h (hv p (List.mem_of_find?_eq_some hf))
  · intro h
    subst h
    unfold asciiLower
    rw [List.find?_eq_none.mpr (by simpa using fun q hq => hk q hq)]

theorem asciiLower_fix_slash (c : Char) : asciiLower c = '/' ↔ c = '/' :=
  asciiLower_fixed '/' (by decide) (by decide) c

theorem asciiLower_fix_dot (c : Char) : asciiLower c = '.' ↔ c = '.' :=
  asciiLower_fixed '.' (by decide) (by decide) c

theorem asciiLower_fix_qmark (c : Char) : asciiLower c = '?' ↔ c = '?' :=
  asciiLower_fixed '?' (by decide) (by decide) c

theorem takeWhile_map_ne (f : Char → Char) (c₀ : Char)
    (hfix : ∀ c, f c = c₀ ↔ c = c₀) :
    ∀ l : List Char,
      (l.map f).takeWhile (fun c => c ≠ c₀) = (l.takeWhile (fun c => c ≠ c₀)).map f
  | [] => rfl
  | a :: t => by
    simp only [List.map_cons, List.takeWhile_cons]
    by_cases ha : a = c₀
    · have hfc : f c₀ = c₀ := (hfix c₀).mpr rfl
      simp [ha, hfc]
    · have hfa : ¬ f a = c₀ := fun h => ha ((hfix a).mp h)
      simp [ha, hfa]
      simpa using takeWhile_map_ne f c₀ hfix t

theorem any_map_eq (f : Char → Char) (c₀ : Char)
    (hfix : ∀ c, f c = c₀ ↔ c = c₀) :
    ∀ l : List Char, (l.map f).any (fun c => c = c₀) = l.any (fun c => c = c₀)
  | [] => rfl
  | a :: t => by
    simp only [List.map_cons, List.any_cons, any_map_eq f c₀ hfix t]
    by_cases ha : a = c₀
    · have hfc : f c₀ = c₀ := (hfix c₀).mpr rfl
      simp [ha, hfc]
    · have hfa : ¬ f a = c₀ := fun h => ha ((hfix a).mp h)
      simp [ha, hfa]

theorem pathExt_map_lower (l : GoString) :
    pathExt (l.map asciiLower) = (pathExt l).map asciiLower := by
  simp only [pathExt]
  rw [← List.map_reverse, takeWhile_map_ne asciiLower '/' asciiLower_fix_slash l.reverse,
    any_map_eq asciiLower '.' asciiLower_fix_dot]
  by_cases h : (l.reverse.takeWhile (fun c => c ≠ '/')).any (fun c => c = '.') = true
  · rw [if_pos h, if_pos h, takeWhile_map_ne asciiLower '.' asciiLower_fix_dot,
      ← List.map_reverse, List.map_cons]
    rw [show asciiLower '.' = '.' from by decide]
  · rw [if_neg h, if_neg h]
    rfl

theorem firstIdx_single_eq_none_iff (c₀ : Char) :
    ∀ l : GoString, firstIdx l [c₀] = none ↔ c₀ ∉ l
  | [] => by simp [firstIdx, List.isPrefixOf]
  | a :: t => by
    by_cases ha : c₀ = a
    · subst ha
      simp [firstIdx, List.isPrefixOf]
    · simp only [firstIdx]
      rw [if_neg (by simp [List.isPrefixOf, ha])]
      rw [Option.map_eq_none']
      rw [firstIdx_single_eq_none_iff c₀ t]
      simp [ha]

theorem firstIdx_single_append (c₀ : Char) (q : GoString) :
    ∀ l : GoString, c₀ ∉ l → firstIdx (l ++ c₀ :: q) [c₀] = some l.length
  | [], _ => by simp [firstIdx, List.isPrefixOf]
  | a :: t, h => by
    have ha : ¬ c₀ = a := fun he => h (he ▸ List.mem_cons_self a t)
    simp only [List.cons_append, firstIdx]
    rw [if_neg (by simp [List.isPrefixOf, ha])]
    simp only [List.append_eq]
    rw [firstIdx_single_append c₀ q t (fun hm => h (List.mem_cons_of_mem a hm))]
    rfl

theorem firstIdx_single_map (f : Char → Char) (c₀ : Char)
    (hfix : ∀ c, f c = c₀ ↔ c = c₀) :
    ∀ l : GoString, firstIdx (l.map f) [c₀] = firstIdx l [c₀]
  | [] => rfl
  | a :: t => by
    simp only [List.map_cons, firstIdx]
    by_cases ha : a = c₀
    · rw [if_pos (by simp [List.isPrefixOf, ((hfix a).mpr ha).symm]),
        if_pos (by simp [List.isPrefixOf, ha.symm])]
    · rw [if_neg (by simp [List.isPrefixOf]; exact fun h => ha ((hfix a).mp h.symm)),
        if_neg (by simp [List.isPrefixOf]; exact fun h => ha h.symm)]
      rw [firstIdx_single_map f c₀ hfix t]

theorem firstIdx_of_not_contains (key pat : GoString)
    (h : containsSub key pat = false) : firstIdx key pat = none := by
  cases hx : firstIdx key pat with
  | none => rfl
  | some i =>
    unfold containsSub at h
    rw [hx] at h
    exact absurd h (by simp)

theorem stripQuery_of_not_contains (key : GoString)
    (h : containsSub key (gs "?") = false) : stripQuery key = key := by
  unfold stripQuery
  rw [firstIdx_of_not_contains key (gs "?") h]

theorem stripQuery_append_query (key q : GoString)
    (h : containsSub key (gs "?") = false) : stripQuery (key ++ gs "?" ++ q) = key := by
  have hm : '?' ∉ key :=
    (firstIdx_single_eq_none_iff '?' key).mp
      (by rw [← gs_qmark]; exact firstIdx_of_not_contains key (gs "?") h)
  unfold stripQuery
  rw [show key ++ gs "?" ++ q = key ++ '?' :: q by rw [gs_qmark]; simp]
  rw [gs_qmark, firstIdx_single_append '?' q key hm]
  exact List.take_left key ('?' :: q)

theorem stripQuery_map_lower (key : GoString) :
    stripQuery (key.map asciiLower) = (stripQuery key).map asciiLower := by
  unfold stripQuery
  rw [gs_qmark, firstIdx_single_map asciiLower '?' asciiLower_fix_qmark key]
  cases hx : firstIdx key ['?'] with
  | none => rfl
  | some i => exact (List.map_take asciiLower key i).symm

theorem toLowerGo_map_lower (l : GoString) :
    (l.map asciiLower).map asciiLower = l.map asciiLower := by
  rw [List.map_map]
  exact List.map_congr_left (fun c _ => asciiLower_idem c)

theorem extKey_toLower (key : GoString) : extKey (toLowerGo key) = extKey key := by
  unfold extKey toLowerGo
  rw [stripQuery_map_lower key, pathExt_map_lower (stripQuery key)]
  exact toLowerGo_map_lower (pathExt (stripQuery key))

theorem extKey_append_query (key q : GoString)
    (h : containsSub key (gs "?") = false) :
    extKey (key ++ gs "?" ++ q) = extKey key := by
  unfold extKey
  rw [stripQuery_append_query key q h, stripQuery_of_not_contains key h]

theorem getContentType_ext_congr (sysMime : GoString → GoString) (a b fallback : GoString)
    (h : extKey a = extKey b) :
    getContentType sysMime a fallback = getContentType sysMime b fallback := by
  unfold getContentType
  rw [h]

/-- Claim C5.  `getContentType` ignores any trailing query string, matches
the (lowercased) extension case-insensitively, returns the static-table
entry on a hit, returns a non-empty fallback verbatim on a miss, consults
the system extension-to-MIME lookup (stripping any `;`-separated parameter
suffix) when the fallback is empty, and returns the generic binary type
when every lookup failed. -/
theorem getContentType_fallback_chain (sysMime : GoString → GoString)
    (key q fallback m : GoString) :
    (containsSub key (gs "?") = false →
        getContentType sysMime (key ++ gs "?" ++ q) fallback =
          getContentType sysMime key fallback) ∧
      getContentType sysMime (toLowerGo key) fallback =
        getContentType sysMime key fallback ∧
      (lookupMime (extKey key) = some m → getContentType sysMime key fallback = m) ∧
      (lookupMime (extKey key) = none → fallback ≠ gs "" →
        getContentType sysMime key fallback = fallback) ∧
      (lookupMime (extKey key) = none → fallback = gs "" → sysMime (extKey key) ≠ gs "" →
        getContentType sysMime key fallback =
          trimSpaceGo (paramStrip (sysMime (extKey key)))) ∧
      (lookupMime (extKey key) = none → fallback = gs "" → sysMime (extKey key) = gs "" →
        getContentType sysMime key fallback = gs "application/octet-stream") := by
  refine ⟨fun h => getContentType_ext_congr sysMime _ key fallback
      (extKey_append_query key q h),
    getContentType_ext_congr sysMime _ key fallback (extKey_toLower key),
    fun h => ?_, fun h hfb => ?_, fun h hfb hsys => ?_, fun h hfb hsys => ?_⟩
  · simp only [getContentType]
    rw [h]
  · simp only [getContentType]
    rw [h, if_pos hfb]
  · simp only [getContentType]
    rw [h, if_neg (not_not_intro hfb), if_pos hsys]
  · simp only [getContentType]
    rw [h, if_neg (not_not_intro hfb), if_neg (not_not_intro hsys)]

/-- Witness for claim C5: `styles.css?v=1` and `STYLES.CSS` both resolve
to `text/css`, for a system MIME table that knows nothing. -/
theorem getContentType_fallback_chain_witness :
    containsSub (gs "styles.css") (gs "?") = false ∧
      getContentType (fun _ => gs "") (gs "styles.css" ++ gs "?" ++ gs "v=1") (gs "") =
        getContentType (fun _ => gs "") (gs "styles.css") (gs "") ∧
      lookupMime (extKey (gs "styles.css")) = some (gs "text/css") ∧
      getContentType (fun _ => gs "") (gs "styles.css") (gs "") = gs "text/css" ∧
      getContentType (fun _ => gs "") (gs "STYLES.CSS") (gs "") = gs "text/css" := by
  have h := getContentType_fallback_chain (fun _ => gs "") (gs "styles.css") (gs "v=1")
    (gs "") (gs "text/css")
  refine ⟨by decide, h.1 (by decide), by decide, h.2.2.1 (by decide), ?_⟩
  have h2 := getContentType_fallback_chain (fun _ => gs "") (gs "STYLES.CSS") (gs "v=1")
    (gs "") (gs "text/css")
  exact h2.2.2.1 (by decide)

end GcsMiddleware
